import Mathlib

/-!
Shallow embedding of the arduino-mqtt client core:
the lwmqtt buffer codec (`src/lwmqtt/helpers.c`), the string utility
(`src/lwmqtt/string.c`), and the Arduino adapter / session driver
(`src/MQTTClient.cpp`, `src/MQTTClient.h`).

Buffers are lists of byte values (`List Nat`); a cursor pair `(pos, lim)`
models the C pointer pair `(*buf, buf_end)` as offsets into the buffer.
C strings are modelled as the list of bytes before the terminator
(`Option (List Nat)`, `none` being a NULL pointer), so `strlen` is the
list length and a leading terminator is the empty list.
-/

inductive lwmqtt_err where
  | SUCCESS
  | BUFFER_TOO_SHORT
  | VARNUM_OVERFLOW
  | NETWORK_FAILED_CONNECT
  | NETWORK_FAILED_READ
  | NETWORK_FAILED_WRITE
  | NETWORK_TIMEOUT
  deriving DecidableEq, Repr

open lwmqtt_err

/-- lwmqtt_read_byte: one byte, `BUFFER_TOO_SHORT` when `buf_end <= *buf`;
on failure the out-parameter is set to 0 and the cursor is not advanced. -/
def lwmqtt_read_byte (buf : List Nat) (lim pos : Nat) : lwmqtt_err × Nat × Nat :=
  if lim ≤ pos then (BUFFER_TOO_SHORT, pos, 0)
  else (SUCCESS, pos + 1, buf.getD pos 0)

/-- lwmqtt_read_num: big-endian 16-bit read, `BUFFER_TOO_SHORT` when fewer
than 2 bytes remain (out-parameter set to 0, cursor untouched). -/
def lwmqtt_read_num (buf : List Nat) (lim pos : Nat) : lwmqtt_err × Nat × Nat :=
  if lim - pos < 2 then (BUFFER_TOO_SHORT, pos, 0)
  else (SUCCESS, pos + 2, (buf.getD pos 0) <<< 8 ||| buf.getD (pos + 1) 0)

/-- lwmqtt_read_data: zero-length fast path returns `SUCCESS` with a NULL
view (`none`); otherwise a capacity check, then the view `(pos, len)`
borrows the source buffer and the cursor advances by `len`. -/
def lwmqtt_read_data (buf : List Nat) (lim pos len : Nat) :
    lwmqtt_err × Nat × Option (Nat × Nat) :=
  if len = 0 then (SUCCESS, pos, none)
  else if lim - pos < len then (BUFFER_TOO_SHORT, pos, none)
  else (SUCCESS, pos + len, some (pos, len))

/-- memcpy of `len` bytes from `data` into `buf` starting at offset `pos`. -/
def memcpyInto (buf : List Nat) (pos : Nat) (data : List Nat) (len : Nat) : List Nat :=
  (List.range len).foldl (fun b i => b.set (pos + i) (data.getD i 0)) buf

/-- lwmqtt_write_data: zero-length fast path returns `SUCCESS` without
touching the buffer; otherwise a capacity check, then memcpy and advance. -/
def lwmqtt_write_data (buf : List Nat) (lim pos : Nat) (data : List Nat) (len : Nat) :
    lwmqtt_err × Nat × List Nat :=
  if len = 0 then (SUCCESS, pos, buf)
  else if lim - pos < len then (BUFFER_TOO_SHORT, pos, buf)
  else (SUCCESS, pos + len, memcpyInto buf pos data len)

/-- lwmqtt_string_t: a borrowed, length-prefixed wire string. `data` holds
the bytes the C pointer designates. -/
structure lwmqtt_string_t where
  len : Nat
  data : List Nat
  deriving DecidableEq, Repr

/-- Bytes designated by a `lwmqtt_read_data` view into `buf`. -/
def viewBytes (buf : List Nat) (view : Option (Nat × Nat)) : List Nat :=
  match view with
  | none => []
  | some (start, len) => (buf.drop start).take len

/-- lwmqtt_read_string: a 16-bit length then that many raw bytes, composed
from `lwmqtt_read_num` and `lwmqtt_read_data`; the first failing
sub-operation is propagated and the out string stays unset (`none`). -/
def lwmqtt_read_string (buf : List Nat) (lim pos : Nat) :
    lwmqtt_err × Nat × Option lwmqtt_string_t :=
  match lwmqtt_read_num buf lim pos with
  | (SUCCESS, pos1, len) =>
    match lwmqtt_read_data buf lim pos1 len with
    | (SUCCESS, pos2, view) => (SUCCESS, pos2, some ⟨len, viewBytes buf view⟩)
    | (err, pos2, _) => (err, pos2, none)
  | (err, pos1, _) => (err, pos1, none)

/-- lwmqtt_varnum_length: 1 to 4 groups by the range thresholds 128, 16384,
2097152, 268435456; larger values yield `VARNUM_OVERFLOW` with length 0. -/
def lwmqtt_varnum_length (varnum : Nat) : lwmqtt_err × Nat :=
  if varnum < 128 then (SUCCESS, 1)
  else if varnum < 16384 then (SUCCESS, 2)
  else if varnum < 2097152 then (SUCCESS, 3)
  else if varnum < 268435456 then (SUCCESS, 4)
  else (VARNUM_OVERFLOW, 0)

/-- lwmqtt_read_varnum loop body: bounds check, then the 4-group overflow
check (`shift >= 28`), then consume a byte, or-ing its low 7 bits into the
accumulator; continue while the continuation bit (0x80) is set. -/
def read_varnum_loop (buf : List Nat) (lim pos shift acc : Nat) : lwmqtt_err × Nat × Nat :=
  if lim ≤ pos then (BUFFER_TOO_SHORT, pos, acc)
  else if 28 ≤ shift then (VARNUM_OVERFLOW, pos, acc)
  else if 128 ≤ buf.getD pos 0 then
    read_varnum_loop buf lim (pos + 1) (shift + 7)
      (acc ||| (buf.getD pos 0 &&& 127) <<< shift)
  else (SUCCESS, pos + 1, acc ||| (buf.getD pos 0 &&& 127) <<< shift)
termination_by 28 - shift

/-- lwmqtt_read_varnum: the do-while loop started with `*varnum = 0` and
`shift = 0`. -/
def lwmqtt_read_varnum (buf : List Nat) (lim pos : Nat) : lwmqtt_err × Nat × Nat :=
  read_varnum_loop buf lim pos 0 0

/-- lwmqtt_write_varnum loop body: bounds check, emit the low 7 bits with
the continuation bit when more groups follow (`varnum >> 7 > 0`), and loop
on the shifted value. There is no range check. -/
def write_varnum_loop (buf : List Nat) (lim pos v : Nat) : lwmqtt_err × Nat × List Nat :=
  if lim ≤ pos then (BUFFER_TOO_SHORT, pos, buf)
  else if 0 < v >>> 7 then
    write_varnum_loop (buf.set pos ((v &&& 127) ||| 128)) lim (pos + 1) (v >>> 7)
  else (SUCCESS, pos + 1, buf.set pos (v &&& 127))
termination_by v
decreasing_by
  rw [Nat.shiftRight_eq_div_pow] at *
  exact Nat.div_lt_self (by omega) (by norm_num)

/-- lwmqtt_write_varnum: the do-while encode loop. -/
def lwmqtt_write_varnum (buf : List Nat) (lim pos varnum : Nat) : lwmqtt_err × Nat × List Nat :=
  write_varnum_loop buf lim pos varnum

/-- Number of groups the encode loop emits: one group per 7-bit chunk,
at least one. Used to state the round-trip theorem. -/
def groups (v : Nat) : Nat :=
  if v < 128 then 1 else 1 + groups (v >>> 7)
termination_by v
decreasing_by
  rw [Nat.shiftRight_eq_div_pow] at *
  exact Nat.div_lt_self (by omega) (by norm_num)

/-- lwmqtt_string: NULL or zero (truncated uint16) length gives the
canonical empty wire string, otherwise the input is borrowed with its
uint16-truncated byte length. -/
def lwmqtt_string (str : Option (List Nat)) : lwmqtt_string_t :=
  match str with
  | none => ⟨0, []⟩
  | some s => if s.length % 65536 = 0 then ⟨0, []⟩ else ⟨s.length % 65536, s⟩

/-- memcmp on the first `n` bytes, abstracted to its sign
(-1 below, 0 equal, 1 above). -/
def c_memcmp : List Nat → List Nat → Nat → Int
  | _, _, 0 => 0
  | xs, ys, Nat.succ n =>
    if xs.headD 0 < ys.headD 0 then -1
    else if ys.headD 0 < xs.headD 0 then 1
    else c_memcmp xs.tail ys.tail n

/-- lwmqtt_strcmp: NULL or empty `b` compares equal exactly to the empty
wire string (1 otherwise); differing lengths order by length; equal
lengths compare byte content via memcmp. -/
def lwmqtt_strcmp (a : lwmqtt_string_t) (b : Option (List Nat)) : Int :=
  match b with
  | none => if a.len = 0 then 0 else 1
  | some bs =>
    if bs = [] then (if a.len = 0 then 0 else 1)
    else if a.len ≠ bs.length then (if a.len < bs.length then -1 else 1)
    else c_memcmp a.data bs a.len

/-- Modulus of the 32-bit tick counter. -/
def U32 : Nat := 4294967296

/-- uint32 wrapping subtraction `a - b` for `a, b < U32`. -/
def wsub32 (a b : Nat) : Nat := (U32 + a - b) % U32

/-- Reinterpretation of a uint32 bit pattern as int32_t. -/
def toInt32 (x : Nat) : Int :=
  if x < 2147483648 then (x : Int) else (x : Int) - 4294967296

/-- lwmqtt_arduino_timer_t: start tick and timeout duration. -/
structure lwmqtt_arduino_timer_t where
  start : Nat
  timeout : Nat
  deriving DecidableEq, Repr

/-- lwmqtt_arduino_timer_set: record the timeout and the current tick
(the injected clock value) as the start. -/
def lwmqtt_arduino_timer_set (timeout now_ms : Nat) : lwmqtt_arduino_timer_t :=
  ⟨now_ms, timeout⟩

/-- lwmqtt_arduino_timer_get: wrapping `elapsed = now - start`, then
`timeout - elapsed` reinterpreted as int32_t (negative means expired). -/
def lwmqtt_arduino_timer_get (t : lwmqtt_arduino_timer_t) (now_ms : Nat) : Int :=
  toInt32 (wsub32 t.timeout (wsub32 now_ms t.start))

/-- One poll iteration of the transport read loop, as seen from outside:
the tick at the loop head, the return value of `client->read` and the
liveness report of `client->connected()` (consulted only on empty polls). -/
structure PollStep where
  now : Nat
  r : Int
  conn : Bool
  deriving DecidableEq, Repr

/-- lwmqtt_arduino_network_read loop: while bytes remain and the deadline
has not passed, poll the stream; positive reads accumulate, empty polls
on a dead connection fail with `NETWORK_FAILED_READ`; at exit, zero
accumulated bytes mean `NETWORK_TIMEOUT`, otherwise `SUCCESS`. `none`
means the supplied trace ended before the loop did. -/
def network_read_go (start timeout : Nat) :
    List PollStep → Nat → Nat → Option (lwmqtt_err × Nat)
  | _, 0, acc => some (if acc = 0 then NETWORK_TIMEOUT else SUCCESS, acc)
  | [], _ + 1, _ => none
  | step :: rest, len + 1, acc =>
    if timeout ≤ wsub32 step.now start then
      some (if acc = 0 then NETWORK_TIMEOUT else SUCCESS, acc)
    else if 0 < step.r then
      network_read_go start timeout rest (len + 1 - step.r.toNat) (acc + step.r.toNat)
    else if step.conn then
      network_read_go start timeout rest (len + 1) acc
    else some (NETWORK_FAILED_READ, acc)

/-- lwmqtt_arduino_network_read: the loop entered with `*read = 0`. -/
def lwmqtt_arduino_network_read (start timeout len : Nat) (trace : List PollStep) :
    Option (lwmqtt_err × Nat) :=
  network_read_go start timeout trace len 0

/-- lwmqtt_will_t: owned copies of topic and payload plus flags. -/
structure lwmqtt_will_t where
  topic : lwmqtt_string_t
  payload : lwmqtt_string_t
  retained : Bool
  qos : Nat
  deriving DecidableEq, Repr

/-- Externally visible interactions of a session-driver operation. -/
inductive Effect where
  | enginePublish
  | engineSubscribe
  | engineUnsubscribe
  | engineYield
  | engineKeepAlive
  | engineDisconnect
  | netAvailable
  | netStop
  deriving DecidableEq, Repr

/-- Session state of MQTTClient as far as the guarded operations touch it:
the connection flag, whether a transport is installed, the transport
liveness report, the last error, the staged duplicate packet id and the
will record. -/
structure MQTTClientState where
  _connected : Bool
  netClientSet : Bool
  netConnected : Bool
  _lastError : lwmqtt_err
  nextDupPacketID : Nat
  will : Option lwmqtt_will_t
  deriving DecidableEq, Repr

/-- MQTTClient::connected: the internal flag and a live transport. -/
def MQTTClient_connected (s : MQTTClientState) : Bool :=
  s._connected && s.netClientSet && s.netConnected

/-- MQTTClient::close: clear the flag and stop the transport. -/
def MQTTClient_close (s : MQTTClientState) : MQTTClientState × List Effect :=
  ({ s with _connected := false }, [Effect.netStop])

/-- MQTTClient::publish core: guard on connected, consume a staged
duplicate id, delegate to the engine (its result is the oracle argument),
close on failure. -/
def MQTTClient_publish (s : MQTTClientState) (engineResult : lwmqtt_err) :
    Bool × MQTTClientState × List Effect :=
  if MQTTClient_connected s = false then (false, s, [])
  else
    let s1 := if 0 < s.nextDupPacketID then { s with nextDupPacketID := 0 } else s
    let s2 := { s1 with _lastError := engineResult }
    if engineResult ≠ SUCCESS then
      (false, (MQTTClient_close s2).1, Effect.enginePublish :: (MQTTClient_close s2).2)
    else (true, s2, [Effect.enginePublish])

/-- MQTTClient::subscribe core: guard, delegate, close on failure. -/
def MQTTClient_subscribe (s : MQTTClientState) (engineResult : lwmqtt_err) :
    Bool × MQTTClientState × List Effect :=
  if MQTTClient_connected s = false then (false, s, [])
  else
    let s1 := { s with _lastError := engineResult }
    if engineResult ≠ SUCCESS then
      (false, (MQTTClient_close s1).1, Effect.engineSubscribe :: (MQTTClient_close s1).2)
    else (true, s1, [Effect.engineSubscribe])

/-- MQTTClient::unsubscribe core: guard, delegate, close on failure. -/
def MQTTClient_unsubscribe (s : MQTTClientState) (engineResult : lwmqtt_err) :
    Bool × MQTTClientState × List Effect :=
  if MQTTClient_connected s = false then (false, s, [])
  else
    let s1 := { s with _lastError := engineResult }
    if engineResult ≠ SUCCESS then
      (false, (MQTTClient_close s1).1, Effect.engineUnsubscribe :: (MQTTClient_close s1).2)
    else (true, s1, [Effect.engineUnsubscribe])

/-- MQTTClient::loop core: guard, query available bytes, yield to the
engine when input is pending, then a keep-alive tick; any engine failure
closes. -/
def MQTTClient_loop (s : MQTTClientState) (available : Nat)
    (yieldResult keepAliveResult : lwmqtt_err) : Bool × MQTTClientState × List Effect :=
  if MQTTClient_connected s = false then (false, s, [])
  else if 0 < available then
    if yieldResult ≠ SUCCESS then
      (false, (MQTTClient_close { s with _lastError := yieldResult }).1,
        Effect.netAvailable :: Effect.engineYield ::
          (MQTTClient_close { s with _lastError := yieldResult }).2)
    else if keepAliveResult ≠ SUCCESS then
      (false, (MQTTClient_close { s with _lastError := keepAliveResult }).1,
        Effect.netAvailable :: Effect.engineYield :: Effect.engineKeepAlive ::
          (MQTTClient_close { s with _lastError := keepAliveResult }).2)
    else (true, { s with _lastError := keepAliveResult },
      [Effect.netAvailable, Effect.engineYield, Effect.engineKeepAlive])
  else
    if keepAliveResult ≠ SUCCESS then
      (false, (MQTTClient_close { s with _lastError := keepAliveResult }).1,
        Effect.netAvailable :: Effect.engineKeepAlive ::
          (MQTTClient_close { s with _lastError := keepAliveResult }).2)
    else (true, { s with _lastError := keepAliveResult },
      [Effect.netAvailable, Effect.engineKeepAlive])

/-- MQTTClient::disconnect core: guard, send the engine disconnect, close
unconditionally, report whether the disconnect send succeeded. -/
def MQTTClient_disconnect (s : MQTTClientState) (engineResult : lwmqtt_err) :
    Bool × MQTTClientState × List Effect :=
  if MQTTClient_connected s = false then (false, s, [])
  else
    (engineResult == SUCCESS, (MQTTClient_close { s with _lastError := engineResult }).1,
      Effect.engineDisconnect :: (MQTTClient_close { s with _lastError := engineResult }).2)

/-- MQTTClient::setWill: reject a NULL or empty topic before touching
anything; otherwise clear the old will, then allocate the record and the
owned topic/payload copies (each allocation may fail, modelled by the
three Bool oracles; a failed copy clears the fresh record again). -/
def MQTTClient_setWill (s : MQTTClientState) (topic payload : Option (List Nat))
    (retained : Bool) (qos : Nat) (allocWill allocTopic allocPayload : Bool) :
    MQTTClientState :=
  match topic with
  | none => s
  | some t =>
    if t = [] then s
    else
      let s1 := { s with will := none }
      if allocWill = false then s1
      else if allocTopic = false then { s1 with will := none }
      else
        match payload with
        | some p =>
          if p ≠ [] then
            if allocPayload = false then { s1 with will := none }
            else { s1 with will := some ⟨lwmqtt_string (some t), lwmqtt_string (some p), retained, qos⟩ }
          else { s1 with will := some ⟨lwmqtt_string (some t), ⟨0, []⟩, retained, qos⟩ }
        | none => { s1 with will := some ⟨lwmqtt_string (some t), ⟨0, []⟩, retained, qos⟩ }

/-- A borrowed byte view handed to the message handler: flat address and
byte length. -/
structure View where
  addr : Nat
  len : Nat
  deriving DecidableEq, Repr

/-- Callback kinds of the union-tagged callback storage. -/
inductive MQTTCallbackType where
  | MQTT_CB_NONE
  | MQTT_CB_SIMPLE
  | MQTT_CB_ADVANCED
  | MQTT_CB_RAW
  | MQTT_CB_FUNC_SIMPLE
  | MQTT_CB_FUNC_ADVANCED
  | MQTT_CB_FUNC_RAW
  deriving DecidableEq, Repr

/-- What the handler sees of the callback record: its kind, whether
`cb->client` is set, and the client's read buffer base and size. -/
structure HandlerEnv where
  cbType : MQTTCallbackType
  clientSet : Bool
  readBufPtr : Option Nat
  readBufSize : Nat
  deriving DecidableEq, Repr

/-- Observable outcome of one handler dispatch: the views passed verbatim
to a raw callback (if one ran), whether a legacy callback ran, and every
address where a terminating 0 byte was stored. -/
structure Dispatch where
  rawCall : Option (View × Option View)
  legacyCall : Bool
  writes : List Nat
  deriving DecidableEq, Repr

/-- The containment predicate of the handler: termination is allowed only
when the view starts at or after the buffer base and ends strictly before
`base + cap` (the capacity including the reserved extra byte). -/
def can_terminate (bufBase : Option Nat) (bufCap : Nat) (ptr len : Nat) : Bool :=
  match bufBase with
  | none => false
  | some base => decide (base ≤ ptr) && decide (ptr + len < base + bufCap)

/-- MQTTClientHandler: none is a no-op; raw kinds get the views untouched;
legacy kinds null-terminate topic and payload in place, but only where
`can_terminate` proves the view lies inside the client's own read buffer
(whose constructor reserved one extra byte). -/
def MQTTClientHandler (env : HandlerEnv) (topic : View) (payload : Option View) : Dispatch :=
  match env.cbType with
  | MQTTCallbackType.MQTT_CB_NONE => ⟨none, false, []⟩
  | MQTTCallbackType.MQTT_CB_RAW => ⟨some (topic, payload), false, []⟩
  | MQTTCallbackType.MQTT_CB_FUNC_RAW => ⟨some (topic, payload), false, []⟩
  | _ =>
    let bufBase := if env.clientSet then env.readBufPtr else none
    let bufCap := if env.clientSet then env.readBufSize + 1 else 0
    let w1 := if can_terminate bufBase bufCap topic.addr topic.len
      then [topic.addr + topic.len] else []
    let w2 := match payload with
      | some p => if can_terminate bufBase bufCap p.addr p.len then [p.addr + p.len] else []
      | none => []
    ⟨none, true, w1 ++ w2⟩

/-! Helper lemmas. -/

theorem getD_set_self (l : List Nat) (i a : Nat) (h : i < l.length) :
    (l.set i a).getD i 0 = a := by
  simp [List.getD_eq_getElem?_getD, List.getElem?_set_self h]

theorem getD_set_ne (l : List Nat) (i j a : Nat) (h : i ≠ j) :
    (l.set i a).getD j 0 = l.getD j 0 := by
  simp [List.getD_eq_getElem?_getD, List.getElem?_set_ne h]

theorem and_127_eq_mod (v : Nat) : v &&& 127 = v % 128 := by
  have h := Nat.and_pow_two_sub_one_eq_mod v 7
  norm_num at h
  exact h

theorem shiftRight_7 (v : Nat) : v >>> 7 = v / 128 := by
  simp [Nat.shiftRight_eq_div_pow]

theorem lor_small_add_mul (acc x s : Nat) (h : acc < 2 ^ s) :
    acc ||| x * 2 ^ s = acc + x * 2 ^ s := by
  rw [Nat.lor_comm, mul_comm x (2 ^ s), ← Nat.mul_add_lt_is_or h x]
  ring

theorem lor_small_add (acc x s : Nat) (h : acc < 2 ^ s) :
    acc ||| x <<< s = acc + x * 2 ^ s := by
  rw [Nat.shiftLeft_eq]
  exact lor_small_add_mul acc x s h

theorem groups_pos (v : Nat) : 1 ≤ groups v := by
  rw [groups]
  split <;> omega

theorem groups_of_lt (v : Nat) (h : v < 268435456) :
    groups v = if v < 128 then 1 else if v < 16384 then 2 else if v < 2097152 then 3 else 4 := by
  rw [groups]
  by_cases h1 : v < 128
  · simp [h1]
  · rw [if_neg h1, if_neg h1, shiftRight_7, groups]
    by_cases h2 : v < 16384
    · have hd : v / 128 < 128 := by omega
      simp [h2, hd]
    · rw [if_neg (by omega : ¬ v / 128 < 128), if_neg h2, shiftRight_7, groups]
      by_cases h3 : v < 2097152
      · have hd : v / 128 / 128 < 128 := by omega
        simp [h3, hd]
      · rw [if_neg (by omega : ¬ v / 128 / 128 < 128), if_neg h3, shiftRight_7,
          groups, if_pos (by omega : v / 128 / 128 / 128 < 128)]

theorem write_varnum_loop_preserves (v : Nat) : ∀ (buf : List Nat) (lim pos i : Nat),
    i < pos → ((write_varnum_loop buf lim pos v).2.2).getD i 0 = buf.getD i 0 := by
  induction v using Nat.strong_induction_on with
  | _ v ih =>
    intro buf lim pos i hi
    rw [write_varnum_loop]
    by_cases h1 : lim ≤ pos
    · rw [if_pos h1]
    · rw [if_neg h1]
      by_cases h2 : 0 < v >>> 7
      · rw [if_pos h2]
        have hlt : v >>> 7 < v := by
          rw [shiftRight_7] at h2 ⊢
          omega
        rw [ih (v >>> 7) hlt _ lim (pos + 1) i (by omega)]
        exact getD_set_ne _ _ _ _ (by omega)
      · rw [if_neg h2]
        exact getD_set_ne _ _ _ _ (by omega)

theorem varnum_aux (v : Nat) : ∀ (buf : List Nat) (lim pos shift acc : Nat),
    lim ≤ buf.length → pos + groups v ≤ lim → 7 * groups v + shift ≤ 28 → acc < 2 ^ shift →
    (write_varnum_loop buf lim pos v).1 = SUCCESS ∧
    (write_varnum_loop buf lim pos v).2.1 = pos + groups v ∧
    read_varnum_loop (write_varnum_loop buf lim pos v).2.2 lim pos shift acc =
      (SUCCESS, pos + groups v, acc + v * 2 ^ shift) := by
  induction v using Nat.strong_induction_on with
  | _ v ih =>
    intro buf lim pos shift acc hbuf hroom hshift hacc
    have hg1 := groups_pos v
    have hpos : ¬ lim ≤ pos := by omega
    have hposlen : pos < buf.length := by omega
    by_cases hv : v < 128
    · -- single group
      have hg : groups v = 1 := by rw [groups, if_pos hv]
      have hvs : ¬ 0 < v >>> 7 := by rw [shiftRight_7]; omega
      have hb : v &&& 127 = v := by rw [and_127_eq_mod]; omega
      rw [write_varnum_loop, if_neg hpos, if_neg hvs]
      refine ⟨rfl, by rw [hg], ?_⟩
      rw [read_varnum_loop, if_neg hpos, if_neg (by omega : ¬ 28 ≤ shift),
        getD_set_self _ _ _ hposlen]
      simp only [hb]
      rw [if_neg (by omega : ¬ 128 ≤ v), lor_small_add acc v shift hacc, hg]
    · -- leading group with continuation bit, then the tail
      have hg : groups v = 1 + groups (v >>> 7) := by rw [groups, if_neg hv]
      have hg1t := groups_pos (v >>> 7)
      have hv7 : v >>> 7 = v / 128 := shiftRight_7 v
      have hv7pos : 0 < v >>> 7 := by rw [hv7]; omega
      have hlt : v >>> 7 < v := by rw [hv7]; omega
      have hbval : (v &&& 127) ||| 128 = v % 128 + 128 := by
        have h1 := lor_small_add_mul (v % 128) 1 7 (by omega)
        rw [and_127_eq_mod]
        norm_num at h1
        exact h1
      have harg : (v % 128 + 128) &&& 127 = v % 128 := by rw [and_127_eq_mod]; omega
      have h2p : (2 : Nat) ^ (shift + 7) = 128 * 2 ^ shift := by
        rw [pow_add, mul_comm]
        norm_num
      have haccs : acc + v % 128 * 2 ^ shift < 2 ^ (shift + 7) := by
        have hle : v % 128 * 2 ^ shift ≤ 127 * 2 ^ shift :=
          Nat.mul_le_mul_right _ (by omega)
        calc acc + v % 128 * 2 ^ shift < 2 ^ shift + 127 * 2 ^ shift :=
              add_lt_add_of_lt_of_le hacc hle
          _ = 128 * 2 ^ shift := by ring
          _ = 2 ^ (shift + 7) := h2p.symm
      rw [write_varnum_loop, if_neg hpos, if_pos hv7pos]
      obtain ⟨ihw1, ihw2, ihr⟩ := ih (v >>> 7) hlt (buf.set pos ((v &&& 127) ||| 128)) lim
        (pos + 1) (shift + 7) (acc + v % 128 * 2 ^ shift)
        (by simpa using hbuf) (by omega) (by omega) haccs
      refine ⟨ihw1, by rw [ihw2]; omega, ?_⟩
      have hbyte :
          ((write_varnum_loop (buf.set pos ((v &&& 127) ||| 128)) lim (pos + 1)
            (v >>> 7)).2.2).getD pos 0 = v % 128 + 128 := by
        rw [write_varnum_loop_preserves (v >>> 7) _ lim (pos + 1) pos (by omega),
          getD_set_self _ _ _ hposlen, hbval]
      rw [read_varnum_loop, if_neg hpos, if_neg (by omega : ¬ 28 ≤ shift), hbyte,
        if_pos (by omega : 128 ≤ v % 128 + 128), harg,
        lor_small_add acc (v % 128) shift hacc, ihr]
      have e1 : pos + 1 + groups (v >>> 7) = pos + groups v := by omega
      have e2 : acc + v % 128 * 2 ^ shift + v >>> 7 * 2 ^ (shift + 7) =
          acc + v * 2 ^ shift := by
        rw [hv7, h2p]
        have hdm : 128 * (v / 128) + v % 128 = v := Nat.div_add_mod v 128
        calc acc + v % 128 * 2 ^ shift + v / 128 * (128 * 2 ^ shift)
            = acc + (128 * (v / 128) + v % 128) * 2 ^ shift := by ring
          _ = acc + v * 2 ^ shift := by rw [hdm]
      rw [e1, e2]

theorem read_varnum_loop_cont (buf : List Nat) (lim pos shift acc : Nat)
    (h1 : pos < lim) (h2 : shift < 28) (h3 : 128 ≤ buf.getD pos 0) :
    read_varnum_loop buf lim pos shift acc =
      read_varnum_loop buf lim (pos + 1) (shift + 7)
        (acc ||| (buf.getD pos 0 &&& 127) <<< shift) := by
  conv_lhs => rw [read_varnum_loop]
  rw [if_neg (by omega : ¬ lim ≤ pos), if_neg (by omega : ¬ 28 ≤ shift), if_pos h3]

theorem read_varnum_loop_pos_bound (buf : List Nat) (lim pos shift acc : Nat) :
    pos ≤ (read_varnum_loop buf lim pos shift acc).2.1 ∧
    (read_varnum_loop buf lim pos shift acc).2.1 ≤ pos + (34 - shift) / 7 := by
  induction pos, shift, acc using read_varnum_loop.induct buf lim with
  | case1 pos shift acc h =>
    rw [read_varnum_loop, if_pos h]
    exact ⟨Nat.le_refl pos, Nat.le_add_right pos _⟩
  | case2 pos shift acc h1 h2 =>
    rw [read_varnum_loop, if_neg h1, if_pos h2]
    exact ⟨Nat.le_refl pos, Nat.le_add_right pos _⟩
  | case3 pos shift acc h1 h2 h3 ih =>
    rw [read_varnum_loop, if_neg h1, if_neg h2, if_pos h3]
    obtain ⟨ih1, ih2⟩ := ih
    constructor
    · omega
    · omega
  | case4 pos shift acc h1 h2 h3 =>
    rw [read_varnum_loop, if_neg h1, if_neg h2, if_neg h3]
    refine ⟨Nat.le_succ pos, ?_⟩
    show pos + 1 ≤ pos + (34 - shift) / 7
    omega

theorem read_num_cases (buf : List Nat) (lim pos : Nat) :
    lwmqtt_read_num buf lim pos = (BUFFER_TOO_SHORT, pos, 0) ∨
    ∃ x, lwmqtt_read_num buf lim pos = (SUCCESS, pos + 2, x) := by
  unfold lwmqtt_read_num
  split_ifs
  · exact Or.inl rfl
  · exact Or.inr ⟨_, rfl⟩

theorem read_data_cases (buf : List Nat) (lim pos len : Nat) :
    lwmqtt_read_data buf lim pos len = (SUCCESS, pos, none) ∨
    lwmqtt_read_data buf lim pos len = (BUFFER_TOO_SHORT, pos, none) ∨
    lwmqtt_read_data buf lim pos len = (SUCCESS, pos + len, some (pos, len)) := by
  unfold lwmqtt_read_data
  split_ifs
  · exact Or.inl rfl
  · exact Or.inr (Or.inl rfl)
  · exact Or.inr (Or.inr rfl)

/-- C1 (amended): for every value v in [0, 268435455], write_varnum into a
buffer with at least 4 free bytes succeeds and advances the cursor by
exactly the group count reported by lwmqtt_varnum_length, and read_varnum
over the written bytes succeeds and yields v back; the value 268435456 is
rejected with VARNUM_OVERFLOW by lwmqtt_varnum_length (write_varnum itself
performs no range check). -/
theorem varnum_roundtrip (v : Nat) (buf : List Nat) (lim pos : Nat)
    (hv : v ≤ 268435455) (hbuf : lim ≤ buf.length) (hroom : pos + 4 ≤ lim) :
    lwmqtt_varnum_length v = (SUCCESS, groups v) ∧
    (lwmqtt_write_varnum buf lim pos v).1 = SUCCESS ∧
    (lwmqtt_write_varnum buf lim pos v).2.1 = pos + groups v ∧
    lwmqtt_read_varnum (lwmqtt_write_varnum buf lim pos v).2.2 lim pos =
      (SUCCESS, pos + groups v, v) ∧
    lwmqtt_varnum_length 268435456 = (VARNUM_OVERFLOW, 0) := by
  have hlt : v < 268435456 := by omega
  have hgle : groups v ≤ 4 := by
    rw [groups_of_lt v hlt]
    split_ifs <;> omega
  have hlen : lwmqtt_varnum_length v = (SUCCESS, groups v) := by
    rw [groups_of_lt v hlt]
    unfold lwmqtt_varnum_length
    split_ifs <;> first | rfl | (exfalso; omega)
  obtain ⟨h1, h2, h3⟩ :=
    varnum_aux v buf lim pos 0 0 hbuf (by omega) (by omega) (by norm_num)
  norm_num at h3
  exact ⟨hlen, h1, h2, h3, by decide⟩

/-- C1 witness: the round-trip theorem applied at v = 300 in a 4-byte buffer. -/
theorem varnum_roundtrip_witness :
    lwmqtt_varnum_length 300 = (SUCCESS, groups 300) ∧
    (lwmqtt_write_varnum [0, 0, 0, 0] 4 0 300).1 = SUCCESS ∧
    (lwmqtt_write_varnum [0, 0, 0, 0] 4 0 300).2.1 = 0 + groups 300 ∧
    lwmqtt_read_varnum (lwmqtt_write_varnum [0, 0, 0, 0] 4 0 300).2.2 4 0 =
      (SUCCESS, 0 + groups 300, 300) ∧
    lwmqtt_varnum_length 268435456 = (VARNUM_OVERFLOW, 0) :=
  varnum_roundtrip 300 [0, 0, 0, 0] 4 0 (by norm_num) (by decide) (by decide)

/-- C1 counterexample: the claim says encoding 268435456 with write_varnum
fails with VarnumOverflow, but write_varnum has no range check: with 5
bytes of room it succeeds and emits 5 groups. -/
theorem varnum_roundtrip_counterexample :
    lwmqtt_write_varnum [0, 0, 0, 0, 0] 5 0 268435456 =
      (SUCCESS, 5, [128, 128, 128, 128, 1]) ∧
    (lwmqtt_write_varnum [0, 0, 0, 0, 0] 5 0 268435456).1 ≠ VARNUM_OVERFLOW := by
  have h : lwmqtt_write_varnum [0, 0, 0, 0, 0] 5 0 268435456 =
      (SUCCESS, 5, [128, 128, 128, 128, 1]) := by
    simp [lwmqtt_write_varnum, write_varnum_loop] <;> decide
  rw [h]
  exact ⟨rfl, by decide⟩

/-- C3 (amended): when the four bytes at the cursor all carry the
continuation bit, read_varnum consumes them and then fails: with a fifth
byte available (pos + 4 < lim) it fails with VARNUM_OVERFLOW, but when the
readable region ends exactly after those four bytes it fails with
BUFFER_TOO_SHORT; in both cases the cursor ends at pos + 4. -/
theorem read_varnum_four_groups (buf : List Nat) (lim pos : Nat)
    (hb0 : 128 ≤ buf.getD pos 0) (hb1 : 128 ≤ buf.getD (pos + 1) 0)
    (hb2 : 128 ≤ buf.getD (pos + 2) 0) (hb3 : 128 ≤ buf.getD (pos + 3) 0)
    (hlim : pos + 4 ≤ lim) :
    (pos + 4 < lim →
      (lwmqtt_read_varnum buf lim pos).1 = VARNUM_OVERFLOW ∧
      (lwmqtt_read_varnum buf lim pos).2.1 = pos + 4) ∧
    (lim = pos + 4 →
      (lwmqtt_read_varnum buf lim pos).1 = BUFFER_TOO_SHORT ∧
      (lwmqtt_read_varnum buf lim pos).2.1 = pos + 4) := by
  rw [lwmqtt_read_varnum,
    read_varnum_loop_cont buf lim pos 0 0 (by omega) (by omega) hb0,
    read_varnum_loop_cont buf lim (pos + 1) (0 + 7) _ (by omega) (by omega) hb1,
    read_varnum_loop_cont buf lim (pos + 1 + 1) (0 + 7 + 7) _ (by omega) (by omega) hb2,
    read_varnum_loop_cont buf lim (pos + 1 + 1 + 1) (0 + 7 + 7 + 7) _ (by omega) (by omega) hb3]
  constructor
  · intro h
    rw [read_varnum_loop, if_neg (by omega : ¬ lim ≤ pos + 1 + 1 + 1 + 1),
      if_pos (by omega : 28 ≤ 0 + 7 + 7 + 7 + 7)]
    exact ⟨rfl, rfl⟩
  · intro h
    rw [read_varnum_loop, if_pos (by omega : lim ≤ pos + 1 + 1 + 1 + 1)]
    exact ⟨rfl, rfl⟩

/-- C3 witness: four continuation bytes with a fifth byte available fail
with VARNUM_OVERFLOW at cursor 4. -/
theorem read_varnum_four_groups_witness :
    (lwmqtt_read_varnum [128, 128, 128, 128, 129] 5 0).1 = VARNUM_OVERFLOW ∧
    (lwmqtt_read_varnum [128, 128, 128, 128, 129] 5 0).2.1 = 0 + 4 :=
  (read_varnum_four_groups [128, 128, 128, 128, 129] 5 0 (by decide) (by decide) (by decide)
    (by decide) (by decide)).1 (by decide)

/-- C3 counterexample: an input that is exactly four continuation bytes
fails with BUFFER_TOO_SHORT, not VARNUM_OVERFLOW as the claim states. -/
theorem read_varnum_four_groups_counterexample :
    (lwmqtt_read_varnum [128, 128, 128, 128] 4 0).1 = BUFFER_TOO_SHORT ∧
    (lwmqtt_read_varnum [128, 128, 128, 128] 4 0).1 ≠ VARNUM_OVERFLOW := by
  have h : lwmqtt_read_varnum [128, 128, 128, 128] 4 0 = (BUFFER_TOO_SHORT, 4, 0) := by
    simp [lwmqtt_read_varnum, read_varnum_loop] <;> decide
  rw [h]
  exact ⟨rfl, by decide⟩

/-- C2 (amended): a failing primitive read (read_byte, read_num, read_data)
leaves the cursor exactly where it was; the composite reads keep the
advance of their successful sub-steps: a failing read_string leaves the
cursor at pos (length read failed) or pos + 2 (length read succeeded,
data read failed), and read_varnum never moves the cursor back or beyond
the at most four byte groups it consumed. -/
theorem read_failure_cursor (buf : List Nat) (lim pos len : Nat) :
    ((lwmqtt_read_byte buf lim pos).1 ≠ SUCCESS →
      (lwmqtt_read_byte buf lim pos).2.1 = pos) ∧
    ((lwmqtt_read_num buf lim pos).1 ≠ SUCCESS →
      (lwmqtt_read_num buf lim pos).2.1 = pos) ∧
    ((lwmqtt_read_data buf lim pos len).1 ≠ SUCCESS →
      (lwmqtt_read_data buf lim pos len).2.1 = pos) ∧
    ((lwmqtt_read_string buf lim pos).1 ≠ SUCCESS →
      (lwmqtt_read_string buf lim pos).2.1 = pos ∨
      (lwmqtt_read_string buf lim pos).2.1 = pos + 2) ∧
    (pos ≤ (lwmqtt_read_varnum buf lim pos).2.1 ∧
      (lwmqtt_read_varnum buf lim pos).2.1 ≤ pos + 4) := by
  refine ⟨?_, ?_, ?_, ?_, ?_⟩
  · intro h
    unfold lwmqtt_read_byte at h ⊢
    split_ifs at h ⊢ <;> simp_all
  · intro h
    unfold lwmqtt_read_num at h ⊢
    split_ifs at h ⊢ <;> simp_all
  · intro h
    unfold lwmqtt_read_data at h ⊢
    split_ifs at h ⊢ <;> simp_all
  · intro h
    rcases read_num_cases buf lim pos with hn | ⟨x, hn⟩
    · left
      simp only [lwmqtt_read_string, hn]
    · rcases read_data_cases buf lim (pos + 2) x with hd | hd | hd
      · exfalso
        simp only [lwmqtt_read_string, hn, hd] at h
        exact h rfl
      · right
        simp only [lwmqtt_read_string, hn, hd]
      · exfalso
        simp only [lwmqtt_read_string, hn, hd] at h
        exact h rfl
  · rw [lwmqtt_read_varnum]
    have hb := read_varnum_loop_pos_bound buf lim pos 0 0
    omega

/-- C2 witness: the frame conditions at concrete failing inputs. -/
theorem read_failure_cursor_witness :
    (lwmqtt_read_byte [] 0 0).2.1 = 0 ∧
    (lwmqtt_read_num [] 0 0).2.1 = 0 ∧
    (lwmqtt_read_data [] 0 0 3).2.1 = 0 ∧
    ((lwmqtt_read_string [0, 5] 2 0).2.1 = 0 ∨ (lwmqtt_read_string [0, 5] 2 0).2.1 = 0 + 2) :=
  ⟨(read_failure_cursor [] 0 0 3).1 (by decide),
   (read_failure_cursor [] 0 0 3).2.1 (by decide),
   (read_failure_cursor [] 0 0 3).2.2.1 (by decide),
   (read_failure_cursor [0, 5] 2 0 0).2.2.2.1 (by decide)⟩

/-- C2 counterexample: read_string on a buffer holding only the 2-byte
length prefix of a 5-byte string fails with BUFFER_TOO_SHORT but leaves
the cursor advanced to 2, not at its starting position 0. -/
theorem read_failure_cursor_counterexample :
    (lwmqtt_read_string [0, 5] 2 0).1 = BUFFER_TOO_SHORT ∧
    (lwmqtt_read_string [0, 5] 2 0).2.1 ≠ 0 := by
  decide

/-- C4: whenever connected() reports false, publish, subscribe,
unsubscribe, loop and disconnect return false immediately, with no
transport or engine interaction (empty effect list) and an unchanged
session state. -/
theorem session_guard (s : MQTTClientState) (er ya ka : lwmqtt_err) (avail : Nat)
    (h : MQTTClient_connected s = false) :
    MQTTClient_publish s er = (false, s, []) ∧
    MQTTClient_subscribe s er = (false, s, []) ∧
    MQTTClient_unsubscribe s er = (false, s, []) ∧
    MQTTClient_loop s avail ya ka = (false, s, []) ∧
    MQTTClient_disconnect s er = (false, s, []) := by
  refine ⟨?_, ?_, ?_, ?_, ?_⟩ <;>
    simp [MQTTClient_publish, MQTTClient_subscribe, MQTTClient_unsubscribe,
      MQTTClient_loop, MQTTClient_disconnect, h]

/-- C4 witness: the guard at a concrete disconnected state. -/
theorem session_guard_witness :
    MQTTClient_publish ⟨false, true, true, SUCCESS, 7, none⟩ BUFFER_TOO_SHORT =
      (false, ⟨false, true, true, SUCCESS, 7, none⟩, []) ∧
    MQTTClient_subscribe ⟨false, true, true, SUCCESS, 7, none⟩ BUFFER_TOO_SHORT =
      (false, ⟨false, true, true, SUCCESS, 7, none⟩, []) ∧
    MQTTClient_unsubscribe ⟨false, true, true, SUCCESS, 7, none⟩ BUFFER_TOO_SHORT =
      (false, ⟨false, true, true, SUCCESS, 7, none⟩, []) ∧
    MQTTClient_loop ⟨false, true, true, SUCCESS, 7, none⟩ 3 SUCCESS SUCCESS =
      (false, ⟨false, true, true, SUCCESS, 7, none⟩, []) ∧
    MQTTClient_disconnect ⟨false, true, true, SUCCESS, 7, none⟩ BUFFER_TOO_SHORT =
      (false, ⟨false, true, true, SUCCESS, 7, none⟩, []) :=
  session_guard ⟨false, true, true, SUCCESS, 7, none⟩ BUFFER_TOO_SHORT SUCCESS SUCCESS 3
    (by decide)

/-- C8: read_data and write_data with len = 0 succeed on every cursor pair
(zero remaining capacity included), never touch the underlying buffer,
do not advance the cursor, and the read variant yields a NULL view. -/
theorem zero_length_fast_path (buf : List Nat) (lim pos : Nat) (data : List Nat) :
    lwmqtt_read_data buf lim pos 0 = (SUCCESS, pos, none) ∧
    lwmqtt_write_data buf lim pos data 0 = (SUCCESS, pos, buf) := by
  constructor
  · rfl
  · rfl

/-- C10: setWill with a NULL topic or an empty topic returns immediately
and leaves the whole session state, in particular any installed will
record, unchanged. -/
theorem setWill_rejects_empty_topic (s : MQTTClientState) (payload : Option (List Nat))
    (retained : Bool) (qos : Nat) (aw atk apl : Bool) :
    MQTTClient_setWill s none payload retained qos aw atk apl = s ∧
    MQTTClient_setWill s (some []) payload retained qos aw atk apl = s := by
  constructor
  · rfl
  · rfl

/-- C9: comparison semantics of lwmqtt_strcmp: a NULL or empty C string
compares equal (0) exactly to a zero-length wire string and yields 1
otherwise (the empty operand ordering as less); two non-empty operands of
different lengths order by length (shorter is less); equal lengths reduce
to the byte-wise memcmp of the contents. -/
theorem strcmp_semantics (a : lwmqtt_string_t) (b : Option (List Nat)) :
    ((b = none ∨ b = some []) →
      ((lwmqtt_strcmp a b = 0 ↔ a.len = 0) ∧ (a.len ≠ 0 → lwmqtt_strcmp a b = 1))) ∧
    (∀ bs, b = some bs → bs ≠ [] → a.len ≠ bs.length →
      lwmqtt_strcmp a b = if a.len < bs.length then -1 else 1) ∧
    (∀ bs, b = some bs → bs ≠ [] → a.len = bs.length →
      lwmqtt_strcmp a b = c_memcmp a.data bs a.len) := by
  refine ⟨?_, ?_, ?_⟩
  · rintro (rfl | rfl) <;>
    · refine ⟨?_, ?_⟩
      · by_cases h : a.len = 0 <;> simp [lwmqtt_strcmp, h]
      · intro h
        simp [lwmqtt_strcmp, h]
  · rintro bs rfl hne hlen
    simp [lwmqtt_strcmp, hne, hlen]
  · rintro bs rfl hne hlen
    simp [lwmqtt_strcmp, hne, hlen]

/-- C9 witness: the three branches at concrete operands. -/
theorem strcmp_semantics_witness :
    (lwmqtt_strcmp ⟨0, []⟩ none = 0 ↔ (0 : Nat) = 0) ∧
    lwmqtt_strcmp ⟨1, [120]⟩ (some []) = 1 ∧
    lwmqtt_strcmp ⟨2, [97, 98]⟩ (some [97]) = 1 ∧
    lwmqtt_strcmp ⟨2, [97, 98]⟩ (some [97, 99]) = c_memcmp [97, 98] [97, 99] 2 :=
  ⟨((strcmp_semantics ⟨0, []⟩ none).1 (Or.inl rfl)).1,
   ((strcmp_semantics ⟨1, [120]⟩ (some [])).1 (Or.inr rfl)).2 (by decide),
   (strcmp_semantics ⟨2, [97, 98]⟩ (some [97])).2.1 [97] rfl (by decide) (by decide),
   (strcmp_semantics ⟨2, [97, 98]⟩ (some [97, 99])).2.2 [97, 99] rfl (by decide) (by decide)⟩

theorem can_terminate_spec (bufBase : Option Nat) (cap ptr len : Nat)
    (h : can_terminate bufBase cap ptr len = true) :
    ∃ base, bufBase = some base ∧ base ≤ ptr ∧ ptr + len < base + cap := by
  cases bufBase with
  | none => simp [can_terminate] at h
  | some base =>
    simp [can_terminate] at h
    exact ⟨base, rfl, h.1, h.2⟩

theorem single_write_bound (bufBase : Option Nat) (cap : Nat) (v : View) (x : Nat)
    (hx : x ∈ if can_terminate bufBase cap v.addr v.len = true
      then [v.addr + v.len] else []) :
    ∃ base, bufBase = some base ∧ base ≤ x ∧ x < base + cap := by
  split at hx
  case isTrue h =>
    rw [List.mem_singleton] at hx
    subst hx
    obtain ⟨base, hb, h1, h2⟩ := can_terminate_spec _ _ _ _ h
    exact ⟨base, hb, by omega, by omega⟩
  case isFalse h =>
    exact absurd hx (List.not_mem_nil x)

theorem legacy_writes_spec (cs : Bool) (rbp : Option Nat) (rbs : Nat)
    (topic : View) (payload : Option View) (x : Nat)
    (hx : x ∈ (if can_terminate (if cs then rbp else none) (if cs then rbs + 1 else 0)
        topic.addr topic.len = true then [topic.addr + topic.len] else []) ++
      (match payload with
        | some p => if can_terminate (if cs then rbp else none) (if cs then rbs + 1 else 0)
            p.addr p.len = true then [p.addr + p.len] else []
        | none => [])) :
    cs = true ∧ ∃ base, rbp = some base ∧ base ≤ x ∧ x < base + rbs + 1 := by
  rw [List.mem_append] at hx
  cases cs with
  | false =>
    exfalso
    rcases hx with hx | hx
    · rw [if_neg (by simp [can_terminate])] at hx
      exact List.not_mem_nil x hx
    · cases payload with
      | none => exact List.not_mem_nil x hx
      | some p =>
        rw [if_neg (by simp [can_terminate])] at hx
        exact List.not_mem_nil x hx
  | true =>
    have e1 : (if (true : Bool) = true then rbp else none) = rbp := if_pos rfl
    have e2 : (if (true : Bool) = true then rbs + 1 else 0) = rbs + 1 := if_pos rfl
    rw [e1, e2] at hx
    rcases hx with hx | hx
    · obtain ⟨base, hb, h1, h2⟩ := single_write_bound rbp (rbs + 1) topic x hx
      exact ⟨rfl, base, hb, h1, by omega⟩
    · cases payload with
      | none => exact absurd hx (List.not_mem_nil x)
      | some p =>
        obtain ⟨base, hb, h1, h2⟩ := single_write_bound rbp (rbs + 1) p x hx
        exact ⟨rfl, base, hb, h1, by omega⟩

/-- C5: on inbound dispatch, a raw callback receives the topic and payload
views verbatim with their decode-supplied lengths and nothing is written;
every terminating 0 byte a legacy dispatch writes lands at an address
provably inside the session's own read buffer including its reserved
extra byte (base ≤ x < base + size + 1), so a view from any other source
is never written to; and a view ending at the read buffer's last valid
offset (addr + len = base + size) is terminated one byte past its length. -/
theorem callback_termination_safety (env : HandlerEnv) (topic : View) (payload : Option View) :
    ((env.cbType = MQTTCallbackType.MQTT_CB_RAW ∨
        env.cbType = MQTTCallbackType.MQTT_CB_FUNC_RAW) →
      (MQTTClientHandler env topic payload).rawCall = some (topic, payload) ∧
      (MQTTClientHandler env topic payload).writes = []) ∧
    (∀ x ∈ (MQTTClientHandler env topic payload).writes,
      env.clientSet = true ∧ ∃ base, env.readBufPtr = some base ∧
        base ≤ x ∧ x < base + env.readBufSize + 1) ∧
    (∀ base, env.cbType = MQTTCallbackType.MQTT_CB_SIMPLE → env.clientSet = true →
      env.readBufPtr = some base → base ≤ topic.addr →
      topic.addr + topic.len = base + env.readBufSize →
      topic.addr + topic.len ∈ (MQTTClientHandler env topic payload).writes) := by
  obtain ⟨ct, cs, rbp, rbs⟩ := env
  refine ⟨?_, ?_, ?_⟩
  · rintro (rfl | rfl) <;> exact ⟨rfl, rfl⟩
  · intro x hx
    cases ct with
    | MQTT_CB_NONE => exact absurd hx (List.not_mem_nil x)
    | MQTT_CB_RAW => exact absurd hx (List.not_mem_nil x)
    | MQTT_CB_FUNC_RAW => exact absurd hx (List.not_mem_nil x)
    | MQTT_CB_SIMPLE => exact legacy_writes_spec cs rbp rbs topic payload x hx
    | MQTT_CB_ADVANCED => exact legacy_writes_spec cs rbp rbs topic payload x hx
    | MQTT_CB_FUNC_SIMPLE => exact legacy_writes_spec cs rbp rbs topic payload x hx
    | MQTT_CB_FUNC_ADVANCED => exact legacy_writes_spec cs rbp rbs topic payload x hx
  · intro base hct hcs hrbp hle heq
    simp only at hct hcs hrbp heq
    subst hct
    subst hcs
    subst hrbp
    have hc : can_terminate (some base) (rbs + 1) topic.addr topic.len = true := by
      simp [can_terminate]
      omega
    show topic.addr + topic.len ∈ _
    simp only [MQTTClientHandler]
    rw [List.mem_append]
    left
    simp [hc]

/-- C5 witness: a raw dispatch passes the exact views through, a legacy
write stays inside the reserved read buffer, and a view ending at the
buffer's last valid offset is terminated. -/
theorem callback_termination_safety_witness :
    ((MQTTClientHandler ⟨MQTTCallbackType.MQTT_CB_RAW, true, some 100, 8⟩ ⟨100, 3⟩
        (some ⟨104, 4⟩)).rawCall = some (⟨100, 3⟩, some ⟨104, 4⟩) ∧
      (MQTTClientHandler ⟨MQTTCallbackType.MQTT_CB_RAW, true, some 100, 8⟩ ⟨100, 3⟩
        (some ⟨104, 4⟩)).writes = []) ∧
    (true = true ∧ ∃ base, (some 100 : Option Nat) = some base ∧
      base ≤ 108 ∧ 108 < base + 8 + 1) ∧
    (100 + 8 ∈ (MQTTClientHandler ⟨MQTTCallbackType.MQTT_CB_SIMPLE, true, some 100, 8⟩
      ⟨100, 8⟩ none).writes) :=
  ⟨(callback_termination_safety ⟨MQTTCallbackType.MQTT_CB_RAW, true, some 100, 8⟩ ⟨100, 3⟩
      (some ⟨104, 4⟩)).1 (Or.inl rfl),
   (callback_termination_safety ⟨MQTTCallbackType.MQTT_CB_SIMPLE, true, some 100, 8⟩ ⟨104, 4⟩
      none).2.1 108 (by decide),
   (callback_termination_safety ⟨MQTTCallbackType.MQTT_CB_SIMPLE, true, some 100, 8⟩ ⟨100, 8⟩
      none).2.2 100 rfl rfl rfl (by decide) (by decide)⟩

/-- C6: arming the timer at tick s with timeout t and querying at tick n,
the remaining time is t minus the wrap-safe elapsed ticks reinterpreted
as int32_t: for every true elapsed count e the wrapping subtraction
recovers e from n = (s + e) mod 2^32 even across counter rollover, the
result equals toInt32((t - e) mod 2^32), it is negative exactly when the
timer has expired (t < e, for t and e below 2^31), and while unexpired it
equals the true remaining time t - e. -/
theorem timer_rollover (s t e : Nat) (hs : s < U32) (ht : t < U32) (he : e < U32) :
    wsub32 ((s + e) % U32) s = e ∧
    lwmqtt_arduino_timer_get (lwmqtt_arduino_timer_set t s) ((s + e) % U32) =
      toInt32 ((U32 + t - e) % U32) ∧
    (t < 2147483648 → e < 2147483648 →
      (lwmqtt_arduino_timer_get (lwmqtt_arduino_timer_set t s) ((s + e) % U32) < 0 ↔
        t < e)) ∧
    (e ≤ t → t - e < 2147483648 →
      lwmqtt_arduino_timer_get (lwmqtt_arduino_timer_set t s) ((s + e) % U32) =
        (t : Int) - (e : Int)) := by
  have h1 : wsub32 ((s + e) % U32) s = e := by
    unfold wsub32 U32 at *
    omega
  refine ⟨h1, ?_, ?_, ?_⟩
  · show toInt32 (wsub32 t (wsub32 ((s + e) % U32) s)) = toInt32 ((U32 + t - e) % U32)
    rw [h1]
    rfl
  · intro ht2 he2
    show toInt32 (wsub32 t (wsub32 ((s + e) % U32) s)) < 0 ↔ t < e
    rw [h1]
    unfold toInt32 wsub32 U32 at *
    split <;> omega
  · intro hle hrem
    show toInt32 (wsub32 t (wsub32 ((s + e) % U32) s)) = (t : Int) - (e : Int)
    rw [h1]
    unfold toInt32 wsub32 U32 at *
    split <;> omega

/-- C6 witness: a rollover scenario: armed 6 ticks before wraparound with
timeout 1000, queried 100 ticks later (so at tick 94 after the wrap). -/
theorem timer_rollover_witness :
    wsub32 ((4294967290 + 100) % U32) 4294967290 = 100 ∧
    lwmqtt_arduino_timer_get (lwmqtt_arduino_timer_set 1000 4294967290)
      ((4294967290 + 100) % U32) = toInt32 ((U32 + 1000 - 100) % U32) ∧
    lwmqtt_arduino_timer_get (lwmqtt_arduino_timer_set 1000 4294967290)
      ((4294967290 + 100) % U32) = (1000 : Int) - (100 : Int) :=
  ⟨(timer_rollover 4294967290 1000 100 (by decide) (by decide) (by decide)).1,
   (timer_rollover 4294967290 1000 100 (by decide) (by decide) (by decide)).2.1,
   (timer_rollover 4294967290 1000 100 (by decide) (by decide) (by decide)).2.2.2
     (by decide) (by decide)⟩

theorem network_read_go_invariant (start timeout : Nat) (trace : List PollStep) :
    ∀ len acc res, network_read_go start timeout trace len acc = some res →
      acc ≤ res.2 ∧
      (res.1 = NETWORK_TIMEOUT → res.2 = 0) ∧
      (res.1 = SUCCESS → 0 < res.2) ∧
      (res.1 = NETWORK_TIMEOUT ∨ res.1 = SUCCESS ∨ res.1 = NETWORK_FAILED_READ) := by
  induction trace with
  | nil =>
    intro len acc res h
    cases len with
    | zero =>
      simp only [network_read_go] at h
      injection h with h
      subst h
      by_cases hacc : acc = 0 <;> simp [hacc] <;> omega
    | succ n =>
      simp only [network_read_go] at h
      exact Option.noConfusion h
  | cons step rest ih =>
    intro len acc res h
    cases len with
    | zero =>
      simp only [network_read_go] at h
      injection h with h
      subst h
      by_cases hacc : acc = 0 <;> simp [hacc] <;> omega
    | succ n =>
      rw [network_read_go] at h
      split_ifs at h with hdl hacc hr hc
      · injection h with h
        subst h
        exact ⟨Nat.le_refl acc, fun _ => hacc, by simp, Or.inl rfl⟩
      · injection h with h
        subst h
        exact ⟨Nat.le_refl acc, by simp, fun _ => by omega, Or.inr (Or.inl rfl)⟩
      · have hrec := ih (n + 1 - step.r.toNat) (acc + step.r.toNat) res h
        exact ⟨by omega, hrec.2.1, hrec.2.2.1, hrec.2.2.2⟩
      · exact ih (n + 1) acc res h
      · injection h with h
        subst h
        exact ⟨Nat.le_refl acc, by simp, by simp, Or.inr (Or.inr rfl)⟩

/-- C7: the transport read returns NETWORK_TIMEOUT exactly when zero bytes
were accumulated by the deadline and no disconnect was seen; any nonzero
accumulation yields SUCCESS, even below the requested length; and an
in-deadline empty poll on a stream that reports disconnection returns
NETWORK_FAILED_READ at once with the bytes read so far. -/
theorem network_read_completion (start timeout len : Nat) (trace : List PollStep) :
    (∀ res, lwmqtt_arduino_network_read start timeout len trace = some res →
      ((res.1 = NETWORK_TIMEOUT ↔ res.2 = 0 ∧ res.1 ≠ NETWORK_FAILED_READ) ∧
       (res.1 = SUCCESS ↔ 0 < res.2 ∧ res.1 ≠ NETWORK_FAILED_READ))) ∧
    (∀ step rest acc, 0 < len → wsub32 step.now start < timeout → step.r ≤ 0 →
      step.conn = false →
      network_read_go start timeout (step :: rest) len acc =
        some (NETWORK_FAILED_READ, acc)) := by
  constructor
  · intro res h
    obtain ⟨h1, h2, h3, h4⟩ := network_read_go_invariant start timeout trace len 0 res h
    constructor
    · constructor
      · intro ht
        exact ⟨h2 ht, by rw [ht]; decide⟩
      · rintro ⟨hz, hnf⟩
        rcases h4 with h4 | h4 | h4
        · exact h4
        · exfalso
          have := h3 h4
          omega
        · exact absurd h4 hnf
    · constructor
      · intro hsucc
        exact ⟨h3 hsucc, by rw [hsucc]; decide⟩
      · rintro ⟨hp, hnf⟩
        rcases h4 with h4 | h4 | h4
        · exfalso
          have := h2 h4
          omega
        · exact h4
        · exact absurd h4 hnf
  · intro step rest acc hlen hdl hr hconn
    cases len with
    | zero => omega
    | succ n =>
      rw [network_read_go, if_neg (by omega : ¬ timeout ≤ wsub32 step.now start),
        if_neg (by omega : ¬ (0 : Int) < step.r), if_neg (by simp [hconn])]

/-- C7 witness: a single poll delivering all 5 requested bytes yields
SUCCESS with 5 bytes, and an in-deadline empty poll on a dead stream
yields NETWORK_FAILED_READ with the bytes accumulated so far. -/
theorem network_read_completion_witness :
    (((SUCCESS, 5) : lwmqtt_err × Nat).1 = NETWORK_TIMEOUT ↔
      ((SUCCESS, 5) : lwmqtt_err × Nat).2 = 0 ∧
      ((SUCCESS, 5) : lwmqtt_err × Nat).1 ≠ NETWORK_FAILED_READ) ∧
    (((SUCCESS, 5) : lwmqtt_err × Nat).1 = SUCCESS ↔
      0 < ((SUCCESS, 5) : lwmqtt_err × Nat).2 ∧
      ((SUCCESS, 5) : lwmqtt_err × Nat).1 ≠ NETWORK_FAILED_READ) ∧
    network_read_go 0 100 [⟨3, 0, false⟩] 5 7 = some (NETWORK_FAILED_READ, 7) :=
  ⟨((network_read_completion 0 100 5 [⟨0, 5, true⟩]).1 (SUCCESS, 5) (by decide)).1,
   ((network_read_completion 0 100 5 [⟨0, 5, true⟩]).1 (SUCCESS, 5) (by decide)).2,
   (network_read_completion 0 100 5 [⟨3, 0, false⟩]).2 ⟨3, 0, false⟩ [] 7 (by decide)
     (by decide) (by decide) rfl⟩
